import Mathlib

/-!
A shallow embedding of the Conway Game-of-Life core of this repository:

* `Cell` / coordinate primitives (packages/shared `types.ts`):
  the source represents a coordinate as the string `"row,col"` built by
  `createCoordinates(row, col)` and recovered exactly by `parseCoordinates`.
  Since the rendering is an exact bijection between integer pairs and the
  coordinate strings, the embedding identifies a `Coordinates` value with
  the integer pair `(row, col)` itself.
* `GameRules.shouldBeAlive`, `GameBoard` and its operations
  (`game-engine.ts`).
* `detectCycle` and its helpers (`cycle-detector.ts`).  The optional
  progress callback `onProgress` is modelled by the trace of its
  invocations: `detectCycle` returns, next to the source's result value,
  the ordered list of `(generation, denseState)` pairs it was called with.
-/

namespace GameOfLife

/-- A coordinate `"row,col"`, identified with the pair `(row, col)`. -/
abbrev Coord := Int × Int

/-- `Dimensions` record: `{ rows, cols }` (source: `Dimensions` in
`types.ts`; numbers are integral throughout the core). -/
structure Dimensions where
  rows : Int
  cols : Int
deriving DecidableEq, Repr

/-- The eight Moore-neighbourhood offsets produced by
`Cell.getNeighborPositions`: the double loop `dr, dc ∈ {-1,0,1}`
skipping `(0,0)`, in source iteration order. -/
def neighborOffsets : List (Int × Int) :=
  [(-1, -1), (-1, 0), (-1, 1), (0, -1), (0, 1), (1, -1), (1, 0), (1, 1)]

/-- `Cell.getNeighborPositions`: the eight neighbours of a cell. -/
def getNeighborPositions (c : Coord) : List Coord :=
  neighborOffsets.map (fun d => (c.1 + d.1, c.2 + d.2))

/-- `Cell.isWithinBounds`: `0 ≤ row < rows && 0 ≤ col < cols`. -/
def isWithinBounds (c : Coord) (d : Dimensions) : Bool :=
  0 ≤ c.1 && c.1 < d.rows && 0 ≤ c.2 && c.2 < d.cols

/-- `GameRules.shouldBeAlive`: live cell survives with 2-3 neighbours,
dead cell becomes alive with exactly 3 neighbours. -/
def shouldBeAlive (isCurrentlyAlive : Bool) (neighborCount : Nat) : Bool :=
  if isCurrentlyAlive then
    neighborCount == 2 || neighborCount == 3
  else
    neighborCount == 3

/-- `GameBoard`: a JS `Set` of coordinate strings (here: a `Finset` of
coordinate pairs) plus the board dimensions. -/
structure GameBoard where
  state : Finset Coord
  dimensions : Dimensions
deriving DecidableEq

/-- `GameBoard.isCellAlive`: membership in the live set. -/
def isCellAlive (b : GameBoard) (c : Coord) : Bool :=
  c ∈ b.state

/-- `GameBoard.countLiveNeighbors`: the number of the eight neighbours
that are within bounds and alive. -/
def countLiveNeighbors (b : GameBoard) (c : Coord) : Nat :=
  ((getNeighborPositions c).filter
    (fun n => isWithinBounds n b.dimensions && isCellAlive b n)).length

/-- `GameBoard.getCellsToEvaluate`: every live cell together with each of
its in-bounds neighbours.  The source accumulates into a JS `Set`, so only
the resulting set matters. -/
def getCellsToEvaluate (b : GameBoard) : Finset Coord :=
  b.state ∪ b.state.biUnion (fun c =>
    ((getNeighborPositions c).filter
      (fun n => isWithinBounds n b.dimensions)).toFinset)

/-- `GameBoard.calculateNextGeneration`: keep exactly the evaluated cells
for which the rules say alive; dimensions are carried over unchanged. -/
def calculateNextGeneration (b : GameBoard) : GameBoard :=
  { state := (getCellsToEvaluate b).filter
      (fun c => shouldBeAlive (isCellAlive b c) (countLiveNeighbors b c) = true)
    dimensions := b.dimensions }

/-- `GameBoard.toDenseArray`: a `rows × cols` matrix of 0/1 with a 1 at
each live coordinate.  The source skips a live cell whose row is outside
`[0, rows)` (the `if (row)` guard); a live cell with an out-of-range
column would mutate the JS row array past its length, which cannot be
represented faithfully here, so this embedding is only used on boards
satisfying the in-bounds invariant, where the two agree. -/
def toDenseArray (b : GameBoard) : List (List Nat) :=
  (List.range b.dimensions.rows.toNat).map (fun r =>
    (List.range b.dimensions.cols.toNat).map (fun c =>
      if (Int.ofNat r, Int.ofNat c) ∈ b.state then 1 else 0))

/-- The live cells contributed by row `r` of a dense input: the columns
`c < row.length` whose entry is `1` (source scans each row to its own
length). -/
def rowLive (r : Nat) (row : List Nat) : List Coord :=
  ((List.range row.length).filter (fun c => row.getD c 0 == 1)).map
    (fun c => (Int.ofNat r, Int.ofNat c))

/-- `GameBoard.fromDenseArray`: dimensions are the outer length and the
first row's length (`0` when there are no rows); the live set collects
every `1` entry. -/
def fromDenseArray (input : List (List Nat)) : GameBoard :=
  { state := ((List.range input.length).map
      (fun r => rowLive r (input.getD r []))).flatten.toFinset
    dimensions :=
      { rows := (input.length : Int)
        cols := if input.length > 0 then ((input.headD []).length : Int) else 0 } }

/-- `GameBoard.fromSparseArray`: add every `(row, col)` pair to the set
(duplicates collapse); no bounds check is performed. -/
def fromSparseArray (pairs : List Coord) (d : Dimensions) : GameBoard :=
  { state := pairs.toFinset, dimensions := d }

/-- Lexicographic order on coordinates used to model the canonical
sorting step of `toStateHash` (the source sorts the coordinate strings;
any fixed total order yields the same canonicity of the result). -/
def coordLe (a b : Coord) : Prop :=
  a.1 < b.1 ∨ (a.1 = b.1 ∧ a.2 ≤ b.2)

instance : DecidableRel coordLe := fun a b =>
  decidable_of_iff (a.1 < b.1 ∨ (a.1 = b.1 ∧ a.2 ≤ b.2)) Iff.rfl

instance : IsTrans Coord coordLe where
  trans a b c hab hbc := by
    rcases hab with h1 | ⟨h1, h1'⟩ <;> rcases hbc with h2 | ⟨h2, h2'⟩ <;>
      simp only [coordLe] <;> omega

instance : IsAntisymm Coord coordLe where
  antisymm a b hab hba := by
    rcases a with ⟨a1, a2⟩; rcases b with ⟨b1, b2⟩
    rcases hab with h1 | ⟨h1, h1'⟩ <;> rcases hba with h2 | ⟨h2, h2'⟩ <;>
      simp_all <;> omega

instance : IsTotal Coord coordLe where
  total a b := by
    simp only [coordLe]
    omega

/-- Sorting a multiset of coordinates into a list: any enumeration order
of the underlying JS `Set` sorts to the same list, which is exactly why
the source's `Array.from(this.state).sort()` is a canonical
serialisation. -/
def sortedCoords (m : Multiset Coord) : List Coord :=
  Quot.liftOn m (fun l => l.insertionSort coordLe) (fun l₁ l₂ h => by
    refine List.eq_of_perm_of_sorted ?_ (List.sorted_insertionSort _ _)
      (List.sorted_insertionSort _ _)
    exact ((l₁.perm_insertionSort coordLe).trans h).trans
      (l₂.perm_insertionSort coordLe).symm)

/-- `GameBoard.toStateHash`: the canonical serialisation of the live set —
the coordinates listed in sorted order.  The source sorts the coordinate
strings and wraps them with `JSON.stringify`, an injective encoding of
the sorted list, so two hashes are equal exactly when the sorted lists
are. -/
def toStateHash (b : GameBoard) : List Coord :=
  sortedCoords b.state.val

/-- `GameBoard.equals`: equal sizes and every live cell of `this` lives in
`other`.  Dimensions are not inspected. -/
def equals (b other : GameBoard) : Bool :=
  b.state.card == other.state.card &&
    decide (∀ c ∈ b.state, c ∈ other.state)

/-! ### Cycle detector (`cycle-detector.ts`) -/

/-- `Result` wrapper of the detector module: success carries data,
failure carries an error string. -/
inductive DetResult (T : Type) (E : Type) where
  | success (data : T)
  | failure (error : E)
deriving DecidableEq, Repr

/-- The three shapes of `FinalState.status`. -/
inductive Status where
  | stable
  | oscillating
  | timeout
deriving DecidableEq, Repr

/-- `FinalState`: generation, dense state, status, and the period field
that is only set for oscillating patterns. -/
structure FinalState where
  generation : Int
  state : List (List Nat)
  status : Status
  period : Option Nat := none
deriving DecidableEq, Repr

/-- The detector result type `CycleDetectionResult`. -/
abbrev CycleDetectionResult := DetResult FinalState String

/-- The trace of `onProgress` invocations: each entry is the
`(generation, denseState)` pair the callback was called with, in call
order. -/
abbrev ProgressTrace := List (Int × List (List Nat))

/-- `maxHistorySize`: the sliding window of 20 past state hashes. -/
def maxHistorySize : Nat := 20

/-- `detectOscillation`: the first index `j` (from the oldest entry) of
`stateHistory` holding `nextHash` yields period
`stateHistory.length - j + 1`. -/
def detectOscillation (nextHash : List Coord) (stateHistory : List (List Coord)) :
    Option Nat :=
  (stateHistory.indexOf? nextHash).map (fun j => stateHistory.length - j + 1)

/-- `isStable`: hash comparison between current and next state. -/
def isStable (currentHash nextHash : List Coord) : Bool :=
  currentHash == nextHash

/-- The `for (let i = 1; i < maxAttempts; i++)` loop of `detectCycle`,
with `fuel` the number of remaining iterations (`maxAttempts - i`).
Falling out of the loop produces the timeout result with
`generation = maxAttempts`. -/
def detectCycleLoop (maxAttempts : Int) :
    Nat → Int → List (List Coord) → GameBoard → ProgressTrace →
    CycleDetectionResult × ProgressTrace
  | 0, _, _, currentBoard, trace =>
    (.success { status := .timeout, generation := maxAttempts
                state := toDenseArray currentBoard }, trace)
  | fuel + 1, i, stateHistory, currentBoard, trace =>
    let currentHash := toStateHash currentBoard
    let nextBoard := calculateNextGeneration currentBoard
    let nextHash := toStateHash nextBoard
    let generation := i + 1
    let nextState := toDenseArray nextBoard
    let trace := trace ++ [(generation, nextState)]
    if isStable currentHash nextHash then
      (.success { status := .stable, generation := i
                  state := toDenseArray currentBoard }, trace)
    else
      match detectOscillation nextHash stateHistory with
      | some period =>
        (.success { status := .oscillating, generation := generation
                    state := nextState, period := some period }, trace)
      | none =>
        let stateHistory := stateHistory ++ [currentHash]
        let stateHistory :=
          if stateHistory.length > maxHistorySize then stateHistory.tail
          else stateHistory
        detectCycleLoop maxAttempts fuel (i + 1) stateHistory nextBoard trace

/-- `detectCycle`: validation, the generation-0 handling, then the main
loop.  Returns the source's result together with the trace of progress
events. -/
def detectCycle (initialBoard : GameBoard) (maxAttempts : Int) :
    CycleDetectionResult × ProgressTrace :=
  if maxAttempts ≤ 0 then
    (.failure "maxAttempts must be positive (>= 1)", [])
  else
    let initialHash := toStateHash initialBoard
    let initialNextBoard := calculateNextGeneration initialBoard
    let initialNextHash := toStateHash initialNextBoard
    let initialState := toDenseArray initialBoard
    let trace : ProgressTrace := [(0, initialState)]
    if isStable initialHash initialNextHash then
      (.success { status := .stable, generation := 0, state := initialState }, trace)
    else
      let stateHistory := [initialHash]
      let trace := trace ++ [(1, toDenseArray initialNextBoard)]
      detectCycleLoop maxAttempts (maxAttempts - 1).toNat 1 stateHistory
        initialNextBoard trace

/-! ### Helper lemmas -/

/-- The multiset underlying the sorted coordinate list is the input. -/
lemma sortedCoords_coe (m : Multiset Coord) :
    (sortedCoords m : Multiset Coord) = m :=
  Quot.inductionOn m (fun l => Quotient.sound (l.perm_insertionSort coordLe))

/-- State hashes are equal exactly when the live sets are equal. -/
lemma toStateHash_eq_iff (b b' : GameBoard) :
    toStateHash b = toStateHash b' ↔ b.state = b'.state := by
  constructor
  · intro h
    have h' := congrArg (fun l : List Coord => (l : Multiset Coord)) h
    simpa [toStateHash, sortedCoords_coe, Finset.val_inj] using h'
  · intro h
    simp [toStateHash, h]

/-- `equals` holds exactly when the live sets are equal. -/
lemma equals_iff (b b' : GameBoard) :
    equals b b' = true ↔ b.state = b'.state := by
  simp only [equals, Bool.and_eq_true, beq_iff_eq, decide_eq_true_eq]
  constructor
  · rintro ⟨hcard, hsub⟩
    exact Finset.eq_of_subset_of_card_le (fun c hc => hsub c hc)
      (le_of_eq hcard.symm)
  · intro h
    rw [h]
    exact ⟨rfl, fun c hc => hc⟩

/-- Two boards with equal live sets and equal dimensions are equal. -/
lemma GameBoard.ext' {x y : GameBoard} (h1 : x.state = y.state)
    (h2 : x.dimensions = y.dimensions) : x = y := by
  cases x
  cases y
  simp_all

lemma headD_eq_getD {α : Type} (l : List α) (d : α) :
    l.headD d = l.getD 0 d := by
  cases l <;> rfl

lemma toDenseArray_length (b : GameBoard) :
    (toDenseArray b).length = b.dimensions.rows.toNat := by
  simp only [toDenseArray, List.length_map, List.length_range]

/-- Row `r` of the dense rendering. -/
lemma toDenseArray_row (b : GameBoard) (r : Nat)
    (hr : r < b.dimensions.rows.toNat) :
    (toDenseArray b).getD r [] =
      (List.range b.dimensions.cols.toNat).map (fun c =>
        if (Int.ofNat r, Int.ofNat c) ∈ b.state then 1 else 0) := by
  have h : r < (toDenseArray b).length := by rwa [toDenseArray_length]
  rw [List.getD_eq_getElem _ _ h]
  simp only [toDenseArray]
  rw [List.getElem_map, List.getElem_range]

lemma toDenseArray_getD_length (b : GameBoard) (r : Nat)
    (hr : r < b.dimensions.rows.toNat) :
    ((toDenseArray b).getD r []).length = b.dimensions.cols.toNat := by
  rw [toDenseArray_row b r hr, List.length_map, List.length_range]

/-- Entry `(r, c)` of the dense rendering is 1 exactly on live cells. -/
lemma toDenseArray_entry (b : GameBoard) (r c : Nat)
    (hr : r < b.dimensions.rows.toNat) (hc : c < b.dimensions.cols.toNat) :
    ((toDenseArray b).getD r []).getD c 0 =
      if (Int.ofNat r, Int.ofNat c) ∈ b.state then 1 else 0 := by
  rw [toDenseArray_row b r hr]
  have h2 : c < ((List.range b.dimensions.cols.toNat).map (fun c =>
      if (Int.ofNat r, Int.ofNat c) ∈ b.state then (1 : Nat) else 0)).length := by
    rwa [List.length_map, List.length_range]
  rw [List.getD_eq_getElem _ _ h2, List.getElem_map, List.getElem_range]

lemma mem_rowLive (r : Nat) (row : List Nat) (p : Coord) :
    p ∈ rowLive r row ↔
      ∃ c < row.length, row.getD c 0 = 1 ∧ p = (Int.ofNat r, Int.ofNat c) := by
  simp only [rowLive, List.mem_map, List.mem_filter, List.mem_range, beq_iff_eq]
  constructor
  · rintro ⟨c, ⟨hc, he⟩, rfl⟩
    exact ⟨c, hc, he, rfl⟩
  · rintro ⟨c, hc, he, rfl⟩
    exact ⟨c, ⟨hc, he⟩, rfl⟩

/-- Membership in the live set built from a dense input. -/
lemma mem_fromDenseArray (input : List (List Nat)) (p : Coord) :
    p ∈ (fromDenseArray input).state ↔
      ∃ r < input.length, ∃ c < (input.getD r []).length,
        (input.getD r []).getD c 0 = 1 ∧ p = (Int.ofNat r, Int.ofNat c) := by
  simp only [fromDenseArray, List.mem_toFinset, List.mem_flatten, List.mem_map,
    List.mem_range]
  constructor
  · rintro ⟨l, ⟨r, hr, rfl⟩, hmem⟩
    rw [mem_rowLive] at hmem
    obtain ⟨c, hc, he, rfl⟩ := hmem
    exact ⟨r, hr, c, hc, he, rfl⟩
  · rintro ⟨r, hr, c, hc, he, rfl⟩
    refine ⟨rowLive r (input.getD r []), ⟨r, hr, rfl⟩, ?_⟩
    rw [mem_rowLive]
    exact ⟨c, hc, he, rfl⟩

/-- Bounds-aware version of `mem_fromDenseArray` at a fixed `(r, c)`. -/
lemma mem_fromDenseArray_nat (input : List (List Nat)) (r c : Nat)
    (hr : r < input.length) (hc : c < (input.getD r []).length) :
    ((Int.ofNat r, Int.ofNat c) ∈ (fromDenseArray input).state ↔
      (input.getD r []).getD c 0 = 1) := by
  rw [mem_fromDenseArray]
  constructor
  · rintro ⟨r', hr', c', hc', he, heq⟩
    have hr2 : r = r' := Int.ofNat.inj (congrArg Prod.fst heq)
    have hc2 : c = c' := Int.ofNat.inj (congrArg Prod.snd heq)
    subst hr2
    subst hc2
    exact he
  · intro he
    exact ⟨r, hr, c, hc, he, rfl⟩

/-- Converting a board to its dense rendering and back reproduces the
board, provided the dimensions are positive and all live cells are in
bounds. -/
lemma fromDense_toDense (b : GameBoard)
    (hr : 1 ≤ b.dimensions.rows) (hc : 1 ≤ b.dimensions.cols)
    (hin : ∀ p ∈ b.state, isWithinBounds p b.dimensions = true) :
    fromDenseArray (toDenseArray b) = b := by
  apply GameBoard.ext'
  · apply Finset.ext
    intro p
    rw [mem_fromDenseArray]
    constructor
    · rintro ⟨r, hr2, c, hc2, he, rfl⟩
      rw [toDenseArray_length] at hr2
      rw [toDenseArray_getD_length b r hr2] at hc2
      rw [toDenseArray_entry b r c hr2 hc2] at he
      by_cases hmem : (Int.ofNat r, Int.ofNat c) ∈ b.state
      · exact hmem
      · rw [if_neg hmem] at he
        omega
    · intro hp
      have hb := hin p hp
      simp only [isWithinBounds, Bool.and_eq_true, decide_eq_true_eq] at hb
      obtain ⟨⟨⟨h1, h2⟩, h3⟩, h4⟩ := hb
      have hr2 : p.1.toNat < (toDenseArray b).length := by
        rw [toDenseArray_length]
        omega
      have hr2' : p.1.toNat < b.dimensions.rows.toNat := by
        rwa [toDenseArray_length] at hr2
      have hc2' : p.2.toNat < b.dimensions.cols.toNat := by omega
      have hpe : (Int.ofNat p.1.toNat, Int.ofNat p.2.toNat) = p := by
        have e1 : Int.ofNat p.1.toNat = p.1 := by
          exact_mod_cast Int.toNat_of_nonneg h1
        have e2 : Int.ofNat p.2.toNat = p.2 := by
          exact_mod_cast Int.toNat_of_nonneg h3
        rw [Prod.ext_iff]
        exact ⟨e1, e2⟩
      refine ⟨p.1.toNat, hr2, p.2.toNat, ?_, ?_, hpe.symm⟩
      · rw [toDenseArray_getD_length b _ hr2']
        exact hc2'
      · rw [toDenseArray_entry b _ _ hr2' hc2', hpe, if_pos hp]
  · have hpos : 0 < (toDenseArray b).length := by
      rw [toDenseArray_length]
      omega
    have h0 : (0 : Nat) < b.dimensions.rows.toNat := by omega
    show Dimensions.mk _ _ = b.dimensions
    rw [headD_eq_getD, if_pos hpos, toDenseArray_length,
      toDenseArray_getD_length b 0 h0]
    have e1 : ((b.dimensions.rows.toNat : Nat) : Int) = b.dimensions.rows :=
      Int.toNat_of_nonneg (by omega)
    have e2 : ((b.dimensions.cols.toNat : Nat) : Int) = b.dimensions.cols :=
      Int.toNat_of_nonneg (by omega)
    rw [e1, e2]

/-- Converting a rectangular 0/1 matrix to a sparse board and back
reproduces the matrix. -/
lemma toDense_fromDense (M : List (List Nat))
    (hrect : ∀ row ∈ M, row.length = (M.headD []).length)
    (hbin : ∀ row ∈ M, ∀ v ∈ row, v = 0 ∨ v = 1) :
    toDenseArray (fromDenseArray M) = M := by
  rcases M with _ | ⟨row0, rest⟩
  · rfl
  have hrows : (fromDenseArray (row0 :: rest)).dimensions.rows.toNat =
      (row0 :: rest).length := by
    simp [fromDenseArray]
  have hcols : (fromDenseArray (row0 :: rest)).dimensions.cols.toNat =
      row0.length := by
    simp [fromDenseArray]
  apply List.ext_getElem
  · rw [toDenseArray_length, hrows]
  · intro r h1 h2
    have hr' : r < (fromDenseArray (row0 :: rest)).dimensions.rows.toNat := by
      rwa [hrows]
    have hrowlen : ((row0 :: rest).getD r []).length = row0.length := by
      rw [List.getD_eq_getElem _ _ h2]
      exact hrect _ (List.getElem_mem h2)
    rw [← List.getD_eq_getElem _ [] h1, ← List.getD_eq_getElem _ [] h2]
    apply List.ext_getElem
    · rw [toDenseArray_getD_length _ r hr', hcols, hrowlen]
    · intro c hc1 hc2
      have hc' : c < (fromDenseArray (row0 :: rest)).dimensions.cols.toNat := by
        rw [toDenseArray_getD_length _ r hr'] at hc1
        exact hc1
      have hcr : c < ((row0 :: rest).getD r []).length := hc2
      rw [← List.getD_eq_getElem _ 0 hc1, ← List.getD_eq_getElem _ 0 hc2]
      rw [toDenseArray_entry _ r c hr' hc']
      simp only [mem_fromDenseArray_nat _ r c h2 hcr]
      have hrow_mem : (row0 :: rest).getD r [] ∈ row0 :: rest := by
        rw [List.getD_eq_getElem _ _ h2]
        exact List.getElem_mem h2
      have hvmem : ((row0 :: rest).getD r []).getD c 0 ∈
          (row0 :: rest).getD r [] := by
        rw [List.getD_eq_getElem _ _ hcr]
        exact List.getElem_mem hcr
      rcases hbin _ hrow_mem _ hvmem with hv | hv <;> rw [hv] <;> simp

/-- Appending the next generation's event keeps the trace's generation
column equal to `0, 1, 2, …`. -/
lemma trace_snoc_map (trace : ProgressTrace) (g : Int) (s : List (List Nat))
    (h1 : trace.map Prod.fst = (List.range trace.length).map Int.ofNat)
    (h2 : g = (trace.length : Int)) :
    (trace ++ [(g, s)]).map Prod.fst =
      (List.range (trace ++ [(g, s)]).length).map Int.ofNat := by
  simp [List.range_succ, h1, h2]

/-- Trace invariant of the main loop: starting from a trace whose
generation column is `0, …, i` (with `i + 1` entries), the loop only
appends events continuing that sequence, never removes one, and appends
at most one event per remaining iteration. -/
lemma detectCycleLoop_trace (m : Int) (fuel : Nat) :
    ∀ (i : Int) (hist : List (List Coord)) (b : GameBoard)
      (trace : ProgressTrace),
      trace.map Prod.fst = (List.range trace.length).map Int.ofNat →
      i + 1 = (trace.length : Int) →
      ((detectCycleLoop m fuel i hist b trace).2.map Prod.fst =
         (List.range (detectCycleLoop m fuel i hist b trace).2.length).map
           Int.ofNat) ∧
        trace.length ≤ (detectCycleLoop m fuel i hist b trace).2.length ∧
        (detectCycleLoop m fuel i hist b trace).2.length ≤
          trace.length + fuel := by
  induction fuel with
  | zero =>
    intro i hist b trace h1 h2
    exact ⟨h1, le_refl _, by simp [detectCycleLoop]⟩
  | succ fuel ih =>
    intro i hist b trace h1 h2
    have hmap := trace_snoc_map trace (i + 1)
      (toDenseArray (calculateNextGeneration b)) h1 h2
    have hlen : (trace ++
        [(i + 1, toDenseArray (calculateNextGeneration b))]).length =
        trace.length + 1 := by simp
    cases hst : isStable (toStateHash b)
        (toStateHash (calculateNextGeneration b)) with
    | true =>
      simp only [detectCycleLoop, hst, if_true]
      exact ⟨hmap, by simp, by simp⟩
    | false =>
      cases hosc : detectOscillation (toStateHash (calculateNextGeneration b))
          hist with
      | some p =>
        simp only [detectCycleLoop, hst, Bool.false_eq_true, if_false, hosc]
        exact ⟨hmap, by simp, by simp⟩
      | none =>
        simp only [detectCycleLoop, hst, Bool.false_eq_true, if_false, hosc]
        have := ih (i + 1)
          (if (hist ++ [toStateHash b]).length > maxHistorySize then
            (hist ++ [toStateHash b]).tail
           else hist ++ [toStateHash b])
          (calculateNextGeneration b)
          (trace ++ [(i + 1, toDenseArray (calculateNextGeneration b))])
          hmap (by rw [hlen]; push_cast; omega)
        refine ⟨this.1, ?_, ?_⟩
        · have h3 := this.2.1
          rw [hlen] at h3
          omega
        · have h4 := this.2.2
          rw [hlen] at h4
          omega

/-! ### Claim theorems -/

/-- C1: `shouldBeAlive` is a pure total function of
`(isCurrentlyAlive, neighborCount)`; on neighbour counts `0..8` a live
cell stays alive iff the count is 2 or 3, and a dead cell becomes alive
iff the count is exactly 3. -/
theorem shouldBeAlive_spec (isCurrentlyAlive : Bool) (n : Nat) (_hn : n ≤ 8) :
    shouldBeAlive isCurrentlyAlive n = true ↔
      (if isCurrentlyAlive then n = 2 ∨ n = 3 else n = 3) := by
  cases isCurrentlyAlive <;> simp [shouldBeAlive]

/-- Witness for C1: a live cell with three live neighbours survives. -/
theorem shouldBeAlive_spec_witness :
    shouldBeAlive true 3 = true ↔
      (if (true : Bool) then 3 = 2 ∨ 3 = 3 else 3 = 3) :=
  shouldBeAlive_spec true 3 (by decide)

/-- C2: on a board whose live cells all lie within its dimensions, every
live cell of the next generation lies within the (unchanged) dimensions:
births outside the rectangle are suppressed. -/
theorem nextGeneration_within_bounds (b : GameBoard)
    (h : ∀ c ∈ b.state, isWithinBounds c b.dimensions = true) :
    ∀ c ∈ (calculateNextGeneration b).state,
      isWithinBounds c (calculateNextGeneration b).dimensions = true := by
  intro c hc
  simp only [calculateNextGeneration, Finset.mem_filter] at hc ⊢
  rcases hc with ⟨hc, -⟩
  simp only [getCellsToEvaluate, Finset.mem_union, Finset.mem_biUnion] at hc
  rcases hc with hc | ⟨a, ha, hc⟩
  · exact h c hc
  · rw [List.mem_toFinset, List.mem_filter] at hc
    exact hc.2

/-- Witness for C2: the surviving corner cell of a small in-bounds board
is in bounds in the next generation. -/
theorem nextGeneration_within_bounds_witness :
    isWithinBounds (0, 0)
      (calculateNextGeneration (fromDenseArray [[1, 1], [1, 0]])).dimensions =
      true :=
  nextGeneration_within_bounds (fromDenseArray [[1, 1], [1, 0]]) (by decide)
    (0, 0) (by decide)

/-- C3: on the 5×5 vertical blinker seed with `maxAttempts = 10` the
detector returns `oscillating` with `period = 2`; the progress trace is
exactly generations 0 (the seed), 1 (the horizontal blinker) and 2 (the
seed again). -/
theorem detectCycle_blinker :
    detectCycle
        (fromDenseArray
          [[0, 0, 0, 0, 0], [0, 0, 1, 0, 0], [0, 0, 1, 0, 0],
           [0, 0, 1, 0, 0], [0, 0, 0, 0, 0]]) 10 =
      (.success
        { status := .oscillating, generation := 2, period := some 2
          state :=
            [[0, 0, 0, 0, 0], [0, 0, 1, 0, 0], [0, 0, 1, 0, 0],
             [0, 0, 1, 0, 0], [0, 0, 0, 0, 0]] },
       [(0, [[0, 0, 0, 0, 0], [0, 0, 1, 0, 0], [0, 0, 1, 0, 0],
             [0, 0, 1, 0, 0], [0, 0, 0, 0, 0]]),
        (1, [[0, 0, 0, 0, 0], [0, 0, 0, 0, 0], [0, 1, 1, 1, 0],
             [0, 0, 0, 0, 0], [0, 0, 0, 0, 0]]),
        (2, [[0, 0, 0, 0, 0], [0, 0, 1, 0, 0], [0, 0, 1, 0, 0],
             [0, 0, 1, 0, 0], [0, 0, 0, 0, 0]])]) := by
  decide

/-- C4: on the 3×3 lone-cell seed with `maxAttempts = 10` the detector
returns `stable` with `generation = 1` and the all-dead 3×3 state. -/
theorem detectCycle_lone_cell :
    (detectCycle (fromDenseArray [[0, 0, 0], [0, 1, 0], [0, 0, 0]]) 10).1 =
      .success
        { status := .stable, generation := 1
          state := [[0, 0, 0], [0, 0, 0], [0, 0, 0]] } := by
  decide

/-- C5: for every seed board and every `maxAttempts ≥ 1`, the progress
events carry exactly the generations `0, 1, 2, …` in order (the
generation column of the trace equals `0, …, length − 1`), at least one
event is emitted, and at most `maxAttempts + 1` events are emitted — on
every exit path. -/
theorem detectCycle_progress_events (b : GameBoard) (m : Int) (h : 1 ≤ m) :
    ((detectCycle b m).2.map Prod.fst =
       (List.range (detectCycle b m).2.length).map Int.ofNat) ∧
      1 ≤ (detectCycle b m).2.length ∧
      ((detectCycle b m).2.length : Int) ≤ m + 1 := by
  have hm : ¬ m ≤ 0 := by omega
  rw [detectCycle, if_neg hm]
  cases hst : isStable (toStateHash b)
      (toStateHash (calculateNextGeneration b)) with
  | true =>
    simp only [hst, if_true]
    refine ⟨by simp [List.range_succ], by simp, by simp; omega⟩
  | false =>
    simp only [hst, Bool.false_eq_true, if_false]
    have key := detectCycleLoop_trace m (m - 1).toNat 1 [toStateHash b]
      (calculateNextGeneration b)
      ([((0 : Int), toDenseArray b)] ++
        [((1 : Int), toDenseArray (calculateNextGeneration b))])
      (by simp [List.range_succ]) (by norm_num)
    refine ⟨key.1, le_trans (by simp) key.2.1, ?_⟩
    have h4 := key.2.2
    have h6 : ([((0 : Int), toDenseArray b)] ++
        [((1 : Int), toDenseArray (calculateNextGeneration b))]).length = 2 := by
      simp
    omega

/-- Witness for C5: a lone cell with `maxAttempts = 3` emits generations
`0, 1, 2` — at least one and at most four events. -/
theorem detectCycle_progress_events_witness :
    ((detectCycle (fromDenseArray [[1]]) 3).2.map Prod.fst =
       (List.range (detectCycle (fromDenseArray [[1]]) 3).2.length).map
         Int.ofNat) ∧
      1 ≤ (detectCycle (fromDenseArray [[1]]) 3).2.length ∧
      ((detectCycle (fromDenseArray [[1]]) 3).2.length : Int) ≤ 3 + 1 :=
  detectCycle_progress_events (fromDenseArray [[1]]) 3 (by decide)

/-- C6: two boards have equal fingerprints (`toStateHash`) exactly when
`equals` holds; equal live sets give equal fingerprints and unequal live
sets give unequal ones. -/
theorem fingerprint_eq_iff_equals (b b' : GameBoard) :
    toStateHash b = toStateHash b' ↔ equals b b' = true := by
  rw [toStateHash_eq_iff, equals_iff]

/-- C7: dense/sparse conversion round-trips.  A sparse board with
positive dimensions whose live cells are all in bounds is reproduced by
`fromDenseArray ∘ toDenseArray`; a rectangular 0/1 matrix is reproduced
by `toDenseArray ∘ fromDenseArray`. -/
theorem dense_sparse_roundtrips :
    (∀ b : GameBoard, 1 ≤ b.dimensions.rows → 1 ≤ b.dimensions.cols →
      (∀ p ∈ b.state, isWithinBounds p b.dimensions = true) →
      fromDenseArray (toDenseArray b) = b) ∧
    (∀ M : List (List Nat),
      (∀ row ∈ M, row.length = (M.headD []).length) →
      (∀ row ∈ M, ∀ v ∈ row, v = 0 ∨ v = 1) →
      toDenseArray (fromDenseArray M) = M) :=
  ⟨fromDense_toDense, toDense_fromDense⟩

/-- Witness for C7: both round trips at concrete inputs — a 2×2 board
with one live cell, and the 2×2 identity-like matrix. -/
theorem dense_sparse_roundtrips_witness :
    fromDenseArray (toDenseArray (fromSparseArray [(0, 1)] ⟨2, 2⟩)) =
        fromSparseArray [(0, 1)] ⟨2, 2⟩ ∧
      toDenseArray (fromDenseArray [[1, 0], [0, 1]]) = [[1, 0], [0, 1]] :=
  ⟨dense_sparse_roundtrips.1 _ (by decide) (by decide) (by decide),
   dense_sparse_roundtrips.2 _ (by decide) (by decide)⟩

/-- Counterexample for C8: two boards with equal (empty) live sets but
different dimensions nevertheless satisfy `equals`. -/
theorem equals_ignores_dimensions_cex :
    equals ⟨∅, ⟨1, 1⟩⟩ ⟨∅, ⟨2, 2⟩⟩ = true ∧
      (GameBoard.mk ∅ ⟨1, 1⟩).dimensions ≠ (GameBoard.mk ∅ ⟨2, 2⟩).dimensions := by
  decide

/-- C8 (amended): `equals` compares only the live-cell sets; it holds
exactly when the two live sets are equal, regardless of dimensions. -/
theorem equals_iff_states_eq (b b' : GameBoard) :
    equals b b' = true ↔ b.state = b'.state :=
  equals_iff b b'

/-- Counterexample for C9: `fromSparseArray` stores the out-of-bounds
pair `(5, 5)` on a 1×1 board instead of rejecting or dropping it. -/
theorem fromSparseArray_oob_cex :
    ((5, 5) : Coord) ∈ (fromSparseArray [(5, 5)] ⟨1, 1⟩).state ∧
      isWithinBounds (5, 5) (fromSparseArray [(5, 5)] ⟨1, 1⟩).dimensions =
        false := by
  decide

/-- C9 (amended): `fromSparseArray` applies no bounds policy at all: the
constructed live set contains exactly the input pairs (duplicates
collapse), in-bounds or not, and the dimensions are stored as given. -/
theorem fromSparseArray_keeps_all_pairs (pairs : List Coord) (d : Dimensions) :
    (∀ c : Coord, c ∈ (fromSparseArray pairs d).state ↔ c ∈ pairs) ∧
      (fromSparseArray pairs d).dimensions = d := by
  refine ⟨fun c => ?_, rfl⟩
  simp [fromSparseArray]

/-- C10: with `maxAttempts ≤ 0` the detector fails immediately with the
invalid-input error and emits no progress event. -/
theorem detectCycle_nonpositive (b : GameBoard) (m : Int) (h : m ≤ 0) :
    detectCycle b m = (.failure "maxAttempts must be positive (>= 1)", []) := by
  simp [detectCycle, h]

/-- Witness for C10: `maxAttempts = 0` on a one-cell board. -/
theorem detectCycle_nonpositive_witness :
    detectCycle (fromDenseArray [[1]]) 0 =
      (.failure "maxAttempts must be positive (>= 1)", []) :=
  detectCycle_nonpositive _ 0 (by decide)

end GameOfLife
